import Mathlib

/-
Verification of the fuzzy line-picker's match/rank engine and selection
session against its specification.

Modelling conventions:
* Go strings are modelled as `List Char`; `goLen` is the UTF-8 byte length,
  matching Go's `len` on strings (the space character is a single byte, so
  splitting on the byte `' '` and splitting on the rune `' '` agree).
* Go `float64` score values are modelled by `GoFloat`: either NaN, an
  infinity, or a rational value.  The scorer capability is modelled as a
  pure function returning finite values (rationals), per its contract;
  NaN then arises exactly where the code divides by a zero term count.
  Comparisons on `GoFloat` follow IEEE semantics: every comparison with
  NaN is false.
* `sort.Sort(sort.Reverse(x))` is modelled by the insertion sort that Go's
  sort package runs on slices shorter than 12 elements (the comparator in
  this program is not a strict weak order, so the element order is exactly
  the order insertion sort produces; every concrete input in this file has
  fewer than 12 elements).
* The interactive loop of `FindWithScreen` is driven here by an explicit
  list of events; the event dispatch itself lives in the third-party UI
  library, but the reactions modelled (`Filter` on text change, select on
  confirm, stop with the zero-value output on escape) are the callbacks
  installed by `FindWithScreen`.
-/

namespace Fuzzy

/-- A Go string, as a sequence of characters. -/
abbrev Str : Type := List Char

/-- Go's `len` on a string: the UTF-8 byte length. -/
def goLen (s : Str) : Nat := (List.map Char.utf8Size s).sum

/-- A Go `float64` as it occurs in this program: NaN, an infinity, or a
finite (rational) value. -/
inductive GoFloat where
  | nan : GoFloat
  | inf : GoFloat
  | neginf : GoFloat
  | val : ℚ → GoFloat
deriving DecidableEq

/-- Go's `<` on float64: any comparison involving NaN is false. -/
def goLt : GoFloat → GoFloat → Bool
  | .nan, _ => false
  | _, .nan => false
  | .neginf, .neginf => false
  | .neginf, _ => true
  | _, .neginf => false
  | .inf, _ => false
  | .val a, .val b => decide (a < b)
  | .val _, .inf => true

/-- Go's `>=` on float64: false whenever NaN is involved, otherwise the
negation of `<`. -/
def goGe : GoFloat → GoFloat → Bool
  | .nan, _ => false
  | _, .nan => false
  | a, b => !(goLt a b)

/-- Go float64 addition on finite values, written through `mkRat` so that it
evaluates inside the kernel; `goAdd_eq` identifies it with rational addition. -/
def goAdd (a b : ℚ) : ℚ :=
  mkRat (a.num * b.den + b.num * a.den) (a.den * b.den)

/-- Go float64 division of a finite sum by a count (`score / float64(len(queryParts))`):
division by a zero count gives NaN when the numerator is zero (the only case the
program reaches, since the sum over zero terms is zero) and a signed infinity
otherwise.  The finite case is written through `mkRat` so that it evaluates
inside the kernel; `goDivSum_eq` identifies it with rational division. -/
def goDivSum (s : ℚ) (n : Nat) : GoFloat :=
  if n = 0 then
    if s = 0 then GoFloat.nan
    else if 0 < s then GoFloat.inf else GoFloat.neginf
  else GoFloat.val (mkRat s.num (s.den * n))

/-- `ValueStringer`: an item with a string used for searching (`String()`)
and a value returned to the user (`Value()`). -/
structure ValueStringer where
  str : Str
  val : Str
deriving DecidableEq

/-- `InputItem`: a `ValueStringer` together with a score. -/
structure InputItem where
  item : ValueStringer
  score : GoFloat
deriving DecidableEq

/-- `NewInputItem`: wraps an item with the default score 1. -/
def NewInputItem (item : ValueStringer) : InputItem :=
  { item := item, score := GoFloat.val 1 }

/-- Absolute difference used by `SortableInputItems.Less`:
`math.Abs(float64(len(query) - len(item.String())))`, compared as a natural
number (the float comparison of absolute integer values coincides with the
comparison of the corresponding naturals). -/
def lenDiff (query : Str) (it : InputItem) : Nat :=
  ((goLen query : ℤ) - (goLen it.item.str : ℤ)).natAbs

/-- `SortableInputItems.Less`: item `x` sorts before `y` when its score is
smaller, and otherwise when its length difference to the query is larger.
The second test is reached even when the scores differ (the source comment
says "If Score matches" but there is no check that they do). -/
def Less (query : Str) (x y : InputItem) : Bool :=
  if goLt x.score y.score then true
  else if lenDiff query x > lenDiff query y then true
  else false

/-- One insertion step of the insertion sort in Go's sort package: the new
element `x` bubbles left from the end of the prefix `l` while `lt x y` holds
against each predecessor `y`, so it lands in front of `l` exactly when
`lt x y` holds for every element of `l`, and otherwise is inserted into the
tail the same way. -/
def insertR (lt : InputItem → InputItem → Bool) (x : InputItem) :
    List InputItem → List InputItem
  | [] => [x]
  | y :: ys =>
    if (y :: ys).all (fun z => lt x z) then x :: y :: ys
    else y :: insertR lt x ys

/-- Insertion sort processing elements left to right, as Go's sort package
does for slices shorter than 12 elements. -/
def goInsertionSort (lt : InputItem → InputItem → Bool)
    (l : List InputItem) : List InputItem :=
  List.foldl (fun acc x => insertR lt x acc) [] l

/-- `sort.Sort(sort.Reverse(live))`: insertion sort with the comparator's
arguments swapped. -/
def goSortRev (query : Str) (l : List InputItem) : List InputItem :=
  goInsertionSort (fun a b => Less query b a) l

/-- `Content`: the fuzzy finder's state.  The scorer capability is a pure
function to a finite float; the embedded third-party table state is not
part of the model. -/
structure Content where
  scorer : Str → Str → ℚ
  data : List InputItem
  live : List InputItem
  verbose : Bool
  hideLessThan : ℚ
  returnOneResult : Bool

/-- `NopScorer.Compare`: always returns 1.0. -/
def NopScorer : Str → Str → ℚ := fun _ _ => 1

/-- `newContent`: fresh state with the Nop scorer, `live` starting as the
whole data slice, threshold 1, and the one-result shortcut disabled. -/
def newContent (data : List InputItem) : Content :=
  { scorer := NopScorer
    data := data
    live := data
    verbose := false
    hideLessThan := 1
    returnOneResult := false }

/-- `SupplyNewContent`: builds the data slice by wrapping each supplied item
with `NewInputItem` in enumeration order. -/
def SupplyNewContent (input : List ValueStringer) : Content :=
  newContent (List.map NewInputItem input)

/-- `SetTextScorer`. -/
def SetTextScorer (c : Content) (s : Str → Str → ℚ) : Content :=
  { c with scorer := s }

/-- `SetVerbose`. -/
def SetVerbose (c : Content) : Content := { c with verbose := true }

/-- `SetReturnOneResult`. -/
def SetReturnOneResult (c : Content) : Content := { c with returnOneResult := true }

/-- `SetHideLessThan`. -/
def SetHideLessThan (c : Content) (score : ℚ) : Content :=
  { c with hideLessThan := score }

/-- `GetRowCount`: the length of the live slice. -/
def GetRowCount (c : Content) : Nat := c.live.length

/-- `GetCell`: returns `.ok none` (Go `nil`) when `0 > row || row > GetRowCount()`,
otherwise indexes `c.live[row]`; the index panics (`.error ()`) when `row`
equals the length.  The construction of the displayed table cell from the
item is elided; the returned item stands for the cell. -/
def GetCell (c : Content) (row : ℤ) : Except Unit (Option InputItem) :=
  if 0 > row ∨ row > (GetRowCount c : ℤ) then Except.ok none
  else
    if h : row.toNat < c.live.length then
      Except.ok (some (c.live.get ⟨row.toNat, h⟩))
    else Except.error ()

/-- `removeEmpty`: drops empty strings, keeping order. -/
def removeEmpty : List Str → List Str
  | [] => []
  | s :: rest => if s = ([] : Str) then removeEmpty rest else s :: removeEmpty rest

/-- `strings.Split(query, " ")`: split around every space character,
producing empty strings between adjacent separators. -/
def splitSpace : Str → List Str
  | [] => [[]]
  | ch :: rest =>
    if ch = ' ' then ([] : Str) :: splitSpace rest
    else
      match splitSpace rest with
      | [] => [[ch]]
      | t :: ts => (ch :: t : Str) :: ts

/-- The per-item aggregate score in `Filter`'s loop: the running sum of
`scorer.Compare(item.String(), part)` over the query parts, divided by the
number of parts. -/
def aggScore (scorer : Str → Str → ℚ) (parts : List Str) (text : Str) : GoFloat :=
  goDivSum (List.foldl (fun acc p => goAdd acc (scorer text p)) 0 parts) parts.length

/-- `Filter`'s loop over `c.data`: each item (a copy) gets the aggregate
score; items whose score is `<` the threshold are skipped, the rest are
appended in data order. -/
def filterLive (scorer : Str → Str → ℚ) (thr : ℚ) (parts : List Str) :
    List InputItem → List InputItem
  | [] => []
  | it :: rest =>
    if goLt (aggScore scorer parts it.item.str) (GoFloat.val thr) then
      filterLive scorer thr parts rest
    else
      { it with score := aggScore scorer parts it.item.str } :: filterLive scorer thr parts rest

/-- `Filter`: empty query restores `live := data`; otherwise the query is
split on spaces, empty parts dropped, each data item scored and
threshold-filtered, and the survivors sorted by `sort.Sort(sort.Reverse(...))`. -/
def Filter (c : Content) (query : Str) : Content :=
  if query = ([] : Str) then { c with live := c.data }
  else
    let queryParts := removeEmpty (splitSpace query)
    { c with live := goSortRev query (filterLive c.scorer c.hideLessThan queryParts c.data) }

/-- An input event of the interactive session: a query edit, a confirm of a
row, or a cancellation. -/
inductive Ev where
  | edit (t : Str)
  | confirm (row : Nat)
  | cancel

/-- The interactive loop of `FindWithScreen`, driven by a list of events:
a text change re-runs `Filter`; a confirmed selection stops the application
with `output = live[row].Value()` (a confirm outside the live rows does
nothing); escape stops the application with `output` still holding its
zero value, the empty string.  `none` means the event list ran out with the
application still blocked. -/
def sessionLoop : Content → List Ev → Option Str
  | _, [] => none
  | c, Ev.edit t :: rest => sessionLoop (Filter c t) rest
  | c, Ev.confirm r :: rest =>
    if h : r < c.live.length then some ((c.live.get ⟨r, h⟩).item.val)
    else sessionLoop c rest
  | _, Ev.cancel :: _ => some ([] : Str)

/-- `FindWithScreen` (and `Find`): run `Filter` on the initial query; if
exactly one row is live and `returnOneResult` is set, return its value at
once; otherwise enter the interactive loop. -/
def FindWithScreen (c : Content) (query : Str) (events : List Ev) : Option Str :=
  match (Filter c query).live, (Filter c query).returnOneResult with
  | [x], true => some x.item.val
  | _, _ => sessionLoop (Filter c query) events

/-- The newline written by `fmt.Fprintln`. -/
def nlChar : Char := '\n'

/-- `Run`'s write to standard output: `fmt.Fprintln(stdout, out)` on the
string returned by `Find`, executed whenever `Find` returns. -/
def RunStdout (c : Content) (query : Str) (events : List Ev) : Option Str :=
  (FindWithScreen c query events).map (fun out => out ++ ([nlChar] : Str))

/-- Modelled from the spec: "split query on whitespace" — splitting on every
whitespace character rather than only on the space character.  Used to
compare the spec's wording with the code's space-only split. -/
def specSplitWhitespace : Str → List Str
  | [] => [[]]
  | ch :: rest =>
    if ch.isWhitespace then ([] : Str) :: specSplitWhitespace rest
    else
      match specSplitWhitespace rest with
      | [] => [[ch]]
      | t :: ts => (ch :: t : Str) :: ts

/-- Modelled from the spec: the aggregate score as the spec words it — the
arithmetic mean of the scorer's values over the non-empty terms of the
whitespace-split query. -/
def specAggScore (scorer : Str → Str → ℚ) (query : Str) (text : Str) : GoFloat :=
  aggScore scorer (removeEmpty (specSplitWhitespace query)) text

/-- The specification's worked example: candidates apple, banana, cherry, a
scorer giving an exact match 2 and anything else 0, the default threshold,
and the one-result shortcut enabled. -/
def bananaExample : Content :=
  SetReturnOneResult
    (SetTextScorer
      (SupplyNewContent
        [⟨"apple".data, "apple".data⟩, ⟨"banana".data, "banana".data⟩,
         ⟨"cherry".data, "cherry".data⟩])
      (fun s t => if s = t then 2 else 0))

/-- A two-candidate content with the Nop scorer, used to exercise the
interactive session. -/
def twoItemExample : Content :=
  SupplyNewContent [⟨"aa".data, "aa".data⟩, ⟨"bb".data, "bb".data⟩]

/-- A two-candidate content with the Nop scorer, used to exercise the
all-space query. -/
def spacesExample : Content :=
  SupplyNewContent [⟨"a".data, "a".data⟩, ⟨"bb".data, "bb".data⟩]

/-- Filtering does not touch the `data` field. -/
theorem Filter_data (c : Content) (q : Str) : (Filter c q).data = c.data := by
  unfold Filter
  by_cases h : q = ([] : Str) <;> simp [h]

/-- Filtering does not touch the `scorer` field. -/
theorem Filter_scorer (c : Content) (q : Str) : (Filter c q).scorer = c.scorer := by
  unfold Filter
  by_cases h : q = ([] : Str) <;> simp [h]

/-- Filtering does not touch the threshold. -/
theorem Filter_hideLessThan (c : Content) (q : Str) :
    (Filter c q).hideLessThan = c.hideLessThan := by
  unfold Filter
  by_cases h : q = ([] : Str) <;> simp [h]

/-- Filtering does not touch the one-result flag. -/
theorem Filter_returnOneResult (c : Content) (q : Str) :
    (Filter c q).returnOneResult = c.returnOneResult := by
  unfold Filter
  by_cases h : q = ([] : Str) <;> simp [h]

/-- The live view produced by `Filter`, as an expression in the fields it
actually reads. -/
theorem Filter_live_def (c : Content) (q : Str) :
    (Filter c q).live =
      if q = ([] : Str) then c.data
      else goSortRev q
        (filterLive c.scorer c.hideLessThan (removeEmpty (splitSpace q)) c.data) := by
  unfold Filter
  by_cases h : q = ([] : Str) <;> simp [h]

/-- One insertion step is a permutation: the new element joins the list. -/
theorem insertR_perm (lt : InputItem → InputItem → Bool) (x : InputItem) :
    ∀ l : List InputItem, (insertR lt x l).Perm (x :: l) := by
  intro l
  induction l with
  | nil => exact List.Perm.refl _
  | cons y ys ih =>
    unfold insertR
    split
    · exact List.Perm.refl _
    · exact (ih.cons y).trans (List.Perm.swap x y ys)

/-- Folding insertion steps over a list permutes the accumulated elements
with the remaining ones. -/
theorem foldl_insertR_perm (lt : InputItem → InputItem → Bool) :
    ∀ (l acc : List InputItem),
      (List.foldl (fun acc x => insertR lt x acc) acc l).Perm (acc ++ l) := by
  intro l
  induction l with
  | nil => intro acc; simp
  | cons x xs ih =>
    intro acc
    have h1 := ih (insertR lt x acc)
    have h2 : (insertR lt x acc ++ xs).Perm ((x :: acc) ++ xs) :=
      (insertR_perm lt x acc).append_right xs
    have h3 : ((x :: acc) ++ xs).Perm (acc ++ x :: xs) := List.perm_middle.symm
    simpa using (h1.trans h2).trans h3

/-- The modelled `sort.Sort(sort.Reverse(...))` is a permutation. -/
theorem goSortRev_perm (q : Str) (l : List InputItem) : (goSortRev q l).Perm l := by
  simpa using foldl_insertR_perm (fun a b => Less q b a) l []

/-- Every element the filter loop keeps carries its aggregate score and
passed the threshold comparison. -/
theorem filterLive_sound (sc : Str → Str → ℚ) (thr : ℚ) (parts : List Str) :
    ∀ l : List InputItem, ∀ x ∈ filterLive sc thr parts l,
      x.score = aggScore sc parts x.item.str ∧
      goLt x.score (GoFloat.val thr) = false := by
  intro l
  induction l with
  | nil => intro x hx; simp [filterLive] at hx
  | cons it rest ih =>
    intro x hx
    unfold filterLive at hx
    split at hx
    · exact ih x hx
    · rcases List.mem_cons.mp hx with h | h
      · subst h
        refine ⟨rfl, ?_⟩
        simpa using Bool.not_eq_true _ |>.mp (by assumption)
      · exact ih x h

/-- Every data item whose aggregate score passes the threshold comparison
appears, re-scored, in the filter loop's output. -/
theorem filterLive_complete (sc : Str → Str → ℚ) (thr : ℚ) (parts : List Str) :
    ∀ l : List InputItem, ∀ it ∈ l,
      goLt (aggScore sc parts it.item.str) (GoFloat.val thr) = false →
      ({ item := it.item, score := aggScore sc parts it.item.str } : InputItem) ∈
        filterLive sc thr parts l := by
  intro l
  induction l with
  | nil => intro it hit; simp at hit
  | cons hd rest ih =>
    intro it hit hlt
    rcases List.mem_cons.mp hit with h | h
    · subst h
      unfold filterLive
      rw [hlt]
      simp
    · unfold filterLive
      split
      · exact ih it h hlt
      · exact List.mem_cons_of_mem _ (ih it h hlt)

/-- With an empty term list, every item is kept with score NaN (the sum of
zero terms divided by the zero count). -/
theorem filterLive_nil_parts (sc : Str → Str → ℚ) (thr : ℚ) :
    ∀ l : List InputItem,
      filterLive sc thr [] l =
        l.map (fun it => ({ item := it.item, score := GoFloat.nan } : InputItem)) := by
  intro l
  induction l with
  | nil => rfl
  | cons it rest ih =>
    have hs : aggScore sc [] it.item.str = GoFloat.nan := rfl
    unfold filterLive
    rw [hs]
    simp [goLt, ih]

/-- A query made of spaces only splits into empty terms, all of which are
dropped. -/
theorem removeEmpty_splitSpace_spaces :
    ∀ q : Str, (∀ ch ∈ q, ch = ' ') → removeEmpty (splitSpace q) = [] := by
  intro q
  induction q with
  | nil => intro _; rfl
  | cons ch rest ih =>
    intro h
    have hch : ch = ' ' := h ch (by simp)
    subst hch
    have : removeEmpty (splitSpace rest) = [] := ih (fun c hc => h c (by simp [hc]))
    simp [splitSpace, removeEmpty, this]

/-- A rational times its denominator is its numerator. -/
theorem rat_mul_den_eq_num (a : ℚ) : a * (a.den : ℚ) = (a.num : ℚ) := by
  have ha : ((a.den : ℚ)) ≠ 0 := by
    exact_mod_cast a.den_nz
  nth_rewrite 1 [← Rat.num_div_den a]
  exact div_mul_cancel₀ _ ha

/-- The kernel-friendly addition is rational addition. -/
theorem goAdd_eq (a b : ℚ) : goAdd a b = a + b := by
  unfold goAdd
  rw [Rat.mkRat_eq_div]
  have ha : ((a.den : ℚ)) ≠ 0 := by
    exact_mod_cast a.den_nz
  have hb : ((b.den : ℚ)) ≠ 0 := by
    exact_mod_cast b.den_nz
  push_cast
  rw [div_eq_iff (mul_ne_zero ha hb), ← rat_mul_den_eq_num a, ← rat_mul_den_eq_num b]
  ring

/-- The kernel-friendly division by a non-zero count is rational division. -/
theorem goDivSum_eq (s : ℚ) (n : Nat) (hn : n ≠ 0) :
    goDivSum s n = GoFloat.val (s / (n : ℚ)) := by
  unfold goDivSum
  rw [if_neg hn]
  congr 1
  rw [Rat.mkRat_eq_div]
  have hs : ((s.den : ℚ)) ≠ 0 := by
    exact_mod_cast s.den_nz
  have hn' : ((n : ℚ)) ≠ 0 := by
    exact_mod_cast hn
  push_cast
  rw [div_mul_eq_div_div, Rat.num_div_den]

/-- The loop's running sum equals the sum of the mapped scores. -/
theorem foldl_add_eq_sum (f : Str → ℚ) :
    ∀ (l : List Str) (a : ℚ),
      List.foldl (fun acc p => goAdd acc (f p)) a l = a + (l.map f).sum := by
  intro l
  induction l with
  | nil => intro a; simp
  | cons x xs ih =>
    intro a
    simp only [List.foldl_cons, List.map_cons, List.sum_cons]
    rw [ih, goAdd_eq, add_assoc]

/-- C1: the claim says the live sequence is sorted by strictly descending
aggregate score (length tie-break only at equal scores).  Evaluating the
code at candidates ["abcdef", "q"], query "q", a scorer giving "abcdef"
score 2 and "q" score 1: the live sequence comes out with scores [1, 2] —
ascending — because `Less` applies the length tie-break even when the
scores differ, so after `sort.Reverse` the lower-scored, length-matching
item sorts first. -/
theorem c1_sort_not_descending :
    ((Filter
        (SetTextScorer
          (SupplyNewContent
            [⟨"abcdef".data, "abcdef".data⟩, ⟨"q".data, "q".data⟩])
          (fun s _ => if s = "abcdef".data then 2 else 1))
        "q".data).live.map (fun x => x.score)) = [GoFloat.val 1, GoFloat.val 2]
    ∧ goLt (GoFloat.val 1) (GoFloat.val 2) = true := by
  constructor
  · decide
  · decide

/-- C2 counterexample: for the non-empty, all-space query " " the single
live candidate carries score NaN, and NaN is not greater than or equal to
the threshold 1 under float64 comparison — so "every element of live has
aggregate score ≥ threshold" fails as stated. -/
theorem c2_counterexample :
    ((Filter (SupplyNewContent [⟨"a".data, "a".data⟩]) ([' '] : Str)).live.map
        (fun x => x.score)) = [GoFloat.nan]
    ∧ goGe GoFloat.nan (GoFloat.val 1) = false
    ∧ ([' '] : Str) ≠ ([] : Str) := by
  refine ⟨by decide, by decide, by decide⟩

/-- C2 (amended): after `Filter(q)` with `q` non-empty, every element of the
live set has aggregate score that is not strictly less than the threshold
(float64 comparison, so a NaN score from a query whose terms are all empty
also stays), and every candidate of the full set either has aggregate score
strictly less than the threshold or appears, carrying that aggregate score,
in the live set. -/
theorem c2_threshold (c : Content) (q : Str) (hq : q ≠ ([] : Str)) :
    (∀ x ∈ (Filter c q).live,
        goLt x.score (GoFloat.val c.hideLessThan) = false)
    ∧ (∀ it ∈ c.data,
        goLt (aggScore c.scorer (removeEmpty (splitSpace q)) it.item.str)
            (GoFloat.val c.hideLessThan) = true
        ∨ ({ item := it.item,
             score := aggScore c.scorer (removeEmpty (splitSpace q)) it.item.str } :
              InputItem) ∈ (Filter c q).live) := by
  have hlive : (Filter c q).live =
      goSortRev q
        (filterLive c.scorer c.hideLessThan (removeEmpty (splitSpace q)) c.data) := by
    rw [Filter_live_def]
    simp [hq]
  constructor
  · intro x hx
    rw [hlive] at hx
    have hx' := (goSortRev_perm q _).mem_iff.mp hx
    exact (filterLive_sound _ _ _ _ x hx').2
  · intro it hit
    by_cases h :
        goLt (aggScore c.scorer (removeEmpty (splitSpace q)) it.item.str)
          (GoFloat.val c.hideLessThan) = true
    · exact Or.inl h
    · refine Or.inr ?_
      rw [hlive]
      have hmem := filterLive_complete c.scorer c.hideLessThan
        (removeEmpty (splitSpace q)) c.data it hit
        (by simpa using Bool.not_eq_true _ |>.mp h)
      exact (goSortRev_perm q _).mem_iff.mpr hmem

/-- C2 witness: the amended threshold property instantiated at a two-element
candidate set with the Nop scorer and query "ab". -/
theorem c2_threshold_witness :
    ("ab".data ≠ ([] : Str))
    ∧ ((∀ x ∈ (Filter (SupplyNewContent
            [⟨"aa".data, "aa".data⟩, ⟨"b".data, "b".data⟩]) "ab".data).live,
          goLt x.score
            (GoFloat.val (SupplyNewContent
              [⟨"aa".data, "aa".data⟩, ⟨"b".data, "b".data⟩]).hideLessThan) = false)
        ∧ (∀ it ∈ (SupplyNewContent
              [⟨"aa".data, "aa".data⟩, ⟨"b".data, "b".data⟩]).data,
            goLt (aggScore (SupplyNewContent
                [⟨"aa".data, "aa".data⟩, ⟨"b".data, "b".data⟩]).scorer
                (removeEmpty (splitSpace "ab".data)) it.item.str)
              (GoFloat.val (SupplyNewContent
                [⟨"aa".data, "aa".data⟩, ⟨"b".data, "b".data⟩]).hideLessThan) = true
            ∨ ({ item := it.item,
                 score := aggScore (SupplyNewContent
                    [⟨"aa".data, "aa".data⟩, ⟨"b".data, "b".data⟩]).scorer
                   (removeEmpty (splitSpace "ab".data)) it.item.str } : InputItem) ∈
                (Filter (SupplyNewContent
                  [⟨"aa".data, "aa".data⟩, ⟨"b".data, "b".data⟩]) "ab".data).live)) :=
  ⟨by decide,
   c2_threshold (SupplyNewContent [⟨"aa".data, "aa".data⟩, ⟨"b".data, "b".data⟩])
     "ab".data (by decide)⟩

/-- C3 counterexample: the query "a\tb" contains a tab, which is whitespace
but is not the space character.  The code treats it as the single term
"a\tb": with a scorer returning the byte length of the term, the live
candidate's stored score is 3, while the spec's words — the mean over the
whitespace-split terms "a" and "b" — give 1. -/
theorem c3_counterexample :
    ((Filter
        (SetTextScorer (SupplyNewContent [⟨"x".data, "x".data⟩])
          (fun _ t => (goLen t : ℚ)))
        (['a', '\t', 'b'] : Str)).live.map (fun x => x.score)) = [GoFloat.val 3]
    ∧ specAggScore (fun _ t => (goLen t : ℚ)) (['a', '\t', 'b'] : Str) "x".data
        = GoFloat.val 1
    ∧ GoFloat.val 3 ≠ GoFloat.val 1 := by
  refine ⟨by decide, by decide, by decide⟩

/-- C3 (amended): for every non-empty query, `Filter` splits the query on
the space character only (not on all whitespace), discards empty terms, and
every live candidate's stored score is its aggregate score over those
terms; when at least one term remains, that aggregate score is the
arithmetic mean of the scorer's values over the terms. -/
theorem c3_mean_score (c : Content) (q : Str) (text : Str) (hq : q ≠ ([] : Str)) :
    (∀ x ∈ (Filter c q).live,
        x.score = aggScore c.scorer (removeEmpty (splitSpace q)) x.item.str)
    ∧ (removeEmpty (splitSpace q) ≠ [] →
        aggScore c.scorer (removeEmpty (splitSpace q)) text =
          GoFloat.val
            ((((removeEmpty (splitSpace q)).map (c.scorer text)).sum) /
              ((removeEmpty (splitSpace q)).length : ℚ))) := by
  constructor
  · intro x hx
    rw [Filter_live_def, if_neg hq] at hx
    have hx' := (goSortRev_perm q _).mem_iff.mp hx
    exact (filterLive_sound _ _ _ _ x hx').1
  · intro hparts
    unfold aggScore
    rw [goDivSum_eq _ _ (by simpa using List.length_pos.mpr hparts |>.ne')]
    rw [foldl_add_eq_sum]
    simp

/-- C3 witness: the mean-score property instantiated at a one-candidate set
with a scorer returning the term's byte length and the two-term query "a b". -/
theorem c3_mean_score_witness :
    ("a b".data ≠ ([] : Str))
    ∧ ((∀ x ∈ (Filter
            (SetTextScorer (SupplyNewContent [⟨"x".data, "x".data⟩])
              (fun _ t => (goLen t : ℚ))) "a b".data).live,
          x.score = aggScore
            (SetTextScorer (SupplyNewContent [⟨"x".data, "x".data⟩])
              (fun _ t => (goLen t : ℚ))).scorer
            (removeEmpty (splitSpace "a b".data)) x.item.str)
        ∧ (removeEmpty (splitSpace "a b".data) ≠ [] →
            aggScore
              (SetTextScorer (SupplyNewContent [⟨"x".data, "x".data⟩])
                (fun _ t => (goLen t : ℚ))).scorer
              (removeEmpty (splitSpace "a b".data)) "x".data =
              GoFloat.val
                ((((removeEmpty (splitSpace "a b".data)).map
                    ((SetTextScorer (SupplyNewContent [⟨"x".data, "x".data⟩])
                      (fun _ t => (goLen t : ℚ))).scorer "x".data)).sum) /
                  ((removeEmpty (splitSpace "a b".data)).length : ℚ)))) :=
  ⟨by decide,
   c3_mean_score
     (SetTextScorer (SupplyNewContent [⟨"x".data, "x".data⟩])
       (fun _ t => (goLen t : ℚ)))
     "a b".data "x".data (by decide)⟩

/-- When the one-result shortcut does not fire, `FindWithScreen` enters the
interactive loop on the filtered content. -/
theorem FindWithScreen_fallback (c : Content) (q : Str) (evs : List Ev)
    (hauto : ¬((Filter c q).live.length = 1 ∧ (Filter c q).returnOneResult = true)) :
    FindWithScreen c q evs = sessionLoop (Filter c q) evs := by
  unfold FindWithScreen
  rcases hl : (Filter c q).live with _ | ⟨x, rest⟩
  · rfl
  · rcases rest with _ | ⟨y, ys⟩
    · rcases hb : (Filter c q).returnOneResult
      · rfl
      · exact absurd ⟨by simp [hl], hb⟩ hauto
    · rfl

/-- C4: if the one-result flag is enabled and the first `Filter` pass on the
initial query leaves exactly one live candidate, the session returns that
candidate's return value immediately, for any sequence of interactive
events — the interactive loop is never consulted. -/
theorem c4_return_one_result (c : Content) (q : Str) (evs : List Ev) (x : InputItem)
    (h1 : c.returnOneResult = true) (h2 : (Filter c q).live = [x]) :
    FindWithScreen c q evs = some x.item.val := by
  have hflag : (Filter c q).returnOneResult = true := by
    rw [Filter_returnOneResult]
    exact h1
  unfold FindWithScreen
  rw [h2, hflag]

/-- C4 witness: the specification's worked example — candidates apple,
banana, cherry, initial query "banana", exact-match scorer, threshold 1,
one-result flag on — resolves at once to "banana". -/
theorem c4_return_one_result_witness :
    (bananaExample.returnOneResult = true)
    ∧ ((Filter bananaExample "banana".data).live =
        [⟨⟨"banana".data, "banana".data⟩, GoFloat.val 2⟩])
    ∧ FindWithScreen bananaExample "banana".data [] = some "banana".data :=
  ⟨by decide, by decide,
   c4_return_one_result bananaExample "banana".data []
     ⟨⟨"banana".data, "banana".data⟩, GoFloat.val 2⟩ (by decide) (by decide)⟩

/-- C5: `Filter("")` restores the live set to the full candidate set, in
original order; when the data items carry the construction-time default
score 1 (as every content built by the constructors does), every live item
still carries score 1, with no score computed. -/
theorem c5_empty_query (c : Content)
    (h : ∀ it ∈ c.data, it.score = GoFloat.val 1) :
    (Filter c ([] : Str)).live = c.data
    ∧ ∀ it ∈ (Filter c ([] : Str)).live, it.score = GoFloat.val 1 := by
  have hl : (Filter c ([] : Str)).live = c.data := by
    rw [Filter_live_def]
    simp
  exact ⟨hl, by rw [hl]; exact h⟩

/-- C5 witness: the empty-query identity instantiated at a freshly supplied
two-candidate content. -/
theorem c5_empty_query_witness :
    (∀ it ∈ twoItemExample.data, it.score = GoFloat.val 1)
    ∧ ((Filter twoItemExample ([] : Str)).live = twoItemExample.data
       ∧ ∀ it ∈ (Filter twoItemExample ([] : Str)).live,
          it.score = GoFloat.val 1) :=
  ⟨by decide, c5_empty_query twoItemExample (by decide)⟩

/-- C6 counterexample: cancelling the session still writes one line to the
standard output stream — `Run` passes `Find`'s zero-value result to
`fmt.Fprintln` unconditionally, so a bare line terminator is printed. -/
theorem c6_cancel_writes_newline :
    RunStdout twoItemExample "x".data [Ev.cancel] = some ([nlChar] : Str)
    ∧ some ([nlChar] : Str) ≠ some ([] : Str) :=
  ⟨by decide, by decide⟩

/-- C6 (amended): whenever the session ends, exactly one string is written
to standard output by `fmt.Fprintln`: on success the selected candidate's
return value followed by a line terminator, and on cancellation the empty
output followed by the same line terminator — i.e. a bare newline, not
nothing. -/
theorem c6_output (c : Content) (q : Str) (r : Nat)
    (hr : r < (Filter c q).live.length)
    (hauto : ¬((Filter c q).live.length = 1 ∧ (Filter c q).returnOneResult = true)) :
    RunStdout c q [Ev.confirm r] =
      some (((Filter c q).live.get ⟨r, hr⟩).item.val ++ ([nlChar] : Str))
    ∧ RunStdout c q [Ev.cancel] = some ([nlChar] : Str) := by
  constructor
  · unfold RunStdout
    rw [FindWithScreen_fallback c q _ hauto]
    unfold sessionLoop
    rw [dif_pos hr]
    rfl
  · unfold RunStdout
    rw [FindWithScreen_fallback c q _ hauto]
    rfl

/-- C6 witness: with two live candidates, confirming row 0 writes its value
plus a newline, and cancelling writes a bare newline. -/
theorem c6_output_witness :
    (0 < (Filter twoItemExample "x".data).live.length)
    ∧ ¬((Filter twoItemExample "x".data).live.length = 1
        ∧ (Filter twoItemExample "x".data).returnOneResult = true)
    ∧ RunStdout twoItemExample "x".data [Ev.confirm 0] =
        some ("aa".data ++ ([nlChar] : Str))
    ∧ RunStdout twoItemExample "x".data [Ev.cancel] = some ([nlChar] : Str) := by
  have h := c6_output twoItemExample "x".data 0 (by decide) (by decide)
  refine ⟨by decide, by decide, ?_, h.2⟩
  rw [h.1]
  decide

/-- C7: `Filter` never mutates the full candidate set — the data sequence
(items, order, stored scores) is unchanged — and the live view it produces
does not depend on the previous live view, so no score from an earlier
query can leak into the next. -/
theorem c7_filter_frame (c : Content) (q : Str) (l : List InputItem) :
    (Filter c q).data = c.data
    ∧ (Filter { c with live := l } q).live = (Filter c q).live := by
  refine ⟨Filter_data c q, ?_⟩
  rw [Filter_live_def, Filter_live_def]

/-- C8: for a fixed candidate set, scorer, and query, a second `Filter`
call produces the identical live sequence. -/
theorem c8_deterministic (c : Content) (q : Str) :
    (Filter (Filter c q) q).live = (Filter c q).live := by
  conv_lhs => rw [Filter_live_def]
  rw [Filter_data, Filter_scorer, Filter_hideLessThan]
  conv_rhs => rw [Filter_live_def]

/-- C9: the claim says any out-of-range row yields nil without a panic, but
the bounds check uses `row > GetRowCount()` instead of `>=`: with one live
row, `GetCell(1, _)` slips past the guard and indexes `live[1]` out of
range (a panic), while rows 2 and -1 do return nil. -/
theorem c9_getcell_out_of_range :
    GetCell (SupplyNewContent [⟨"a".data, "a".data⟩]) 1 = Except.error ()
    ∧ GetCell (SupplyNewContent [⟨"a".data, "a".data⟩]) 2 = Except.ok none
    ∧ GetCell (SupplyNewContent [⟨"a".data, "a".data⟩]) (-1) = Except.ok none :=
  ⟨rfl, rfl, rfl⟩

/-- C10: for a non-empty query consisting only of spaces, every split term
is empty and discarded, each aggregate score is the float64 division 0/0 —
NaN — and the NaN-is-never-less comparison drops nobody: the live set keeps
every candidate (as a permutation produced by the sort), all with score
NaN. -/
theorem c10_allspace_keeps_all (c : Content) (q : Str)
    (hq : q ≠ ([] : Str)) (hsp : ∀ ch ∈ q, ch = ' ') :
    (((Filter c q).live.map (fun x => x.item)).Perm
        (c.data.map (fun x => x.item)))
    ∧ ∀ x ∈ (Filter c q).live, x.score = GoFloat.nan := by
  have hparts := removeEmpty_splitSpace_spaces q hsp
  have hlive : (Filter c q).live =
      goSortRev q
        (c.data.map (fun it => ({ item := it.item, score := GoFloat.nan } : InputItem))) := by
    rw [Filter_live_def, if_neg hq, hparts, filterLive_nil_parts]
  constructor
  · rw [hlive]
    have hperm :=
      (goSortRev_perm q
        (c.data.map (fun it => ({ item := it.item, score := GoFloat.nan } : InputItem)))).map
        (fun x => x.item)
    simpa [List.map_map, Function.comp] using hperm
  · intro x hx
    rw [hlive] at hx
    have hx' := (goSortRev_perm q _).mem_iff.mp hx
    rcases List.mem_map.mp hx' with ⟨it, _, rfl⟩
    rfl

/-- C10 witness: the all-space query "  " on a two-candidate set keeps both
candidates, each scored NaN. -/
theorem c10_allspace_keeps_all_witness :
    (([' ', ' '] : Str) ≠ ([] : Str))
    ∧ (∀ ch ∈ ([' ', ' '] : Str), ch = ' ')
    ∧ (((Filter spacesExample ([' ', ' '] : Str)).live.map (fun x => x.item)).Perm
        (spacesExample.data.map (fun x => x.item)))
    ∧ ∀ x ∈ (Filter spacesExample ([' ', ' '] : Str)).live,
        x.score = GoFloat.nan := by
  have h := c10_allspace_keeps_all spacesExample ([' ', ' '] : Str)
    (by decide) (by decide)
  exact ⟨by decide, by decide, h.1, h.2⟩

end Fuzzy
